import Mathlib

/-!
Verification development for the WASSY PAY backend.

The embedding below follows the firebase variant of the backend
(src/unnamed/part_001, "WASSY API, version 2.0-firebase"), which is the most
complete variant in the repository; the SQLite variant (src/server.js) has the
same ingestion pipeline and the same claim route except where noted in the
individual comments.  Clock times are modelled in minutes as naturals, message
identifiers as naturals (the code compares them with BigInt, i.e. unbounded
integers), and JS numbers as exact rationals.
-/

namespace WassyPay

/-! Character classes of the JS regexes used by parsePaymentCommand.
    JS \w is [A-Za-z0-9_], \s is ASCII whitespace, [\d.] is digits and dot. -/

def isWordChar (c : Char) : Bool := c.isAlphanum || c = '_'

def isJsSpace (c : Char) : Bool :=
  c = ' ' || c = '\t' || c = '\n' || c = '\r' || c = '\x0b' || c = '\x0c'

def isDigitDot (c : Char) : Bool := c.isDigit || c = '.'

/-- Case-insensitive prefix test, modelling the i flag of the JS regexes. -/
def startsWithCI : List Char → List Char → Bool
  | [], _ => true
  | _ :: _, [] => false
  | p :: ps, c :: cs => (p.toLower = c.toLower) && startsWithCI ps cs

/-- Case-insensitive substring containment. -/
def ciContains (needle : List Char) : List Char → Bool
  | [] => needle.isEmpty
  | c :: tl => startsWithCI needle (c :: tl) || ciContains needle tl

/-- JS String.prototype.trim on the character list. -/
def jsTrim (l : List Char) : List Char :=
  ((l.dropWhile isJsSpace).reverse.dropWhile isJsSpace).reverse

def digitsToNat (l : List Char) : ℕ :=
  l.foldl (fun acc c => 10 * acc + (c.toNat - '0'.toNat)) 0

/-- JS parseFloat restricted to strings drawn from the capture class [\d.]+:
    parse the longest prefix of the form digits, digits.digits or .digits;
    an unparseable capture (such as ".") yields NaN, modelled as none.  The
    numeric value is exact (the code keeps it as a JS double). -/
def jsParseFloat (l : List Char) : Option ℚ :=
  let ip := l.takeWhile Char.isDigit
  let r := l.drop ip.length
  if ip.isEmpty then
    match r with
    | '.' :: r2 =>
      let fp := r2.takeWhile Char.isDigit
      if fp.isEmpty then none
      else some ((digitsToNat fp : ℚ) / (10 : ℚ) ^ fp.length)
    | _ => none
  else
    match r with
    | '.' :: r2 =>
      let fp := r2.takeWhile Char.isDigit
      if fp.isEmpty then some (digitsToNat ip : ℚ)
      else some ((digitsToNat (ip ++ fp) : ℚ) / (10 : ℚ) ^ fp.length)
    | _ => some (digitsToNat ip : ℚ)

/-- Matches the regex tail \s*\$?\s*([\d.]+) at the head of l, returning the
    amount capture.  The character classes involved are pairwise disjoint, so
    greedy matching needs no backtracking here. -/
def matchAmountTail (l : List Char) : Option (List Char) :=
  let l1 := l.dropWhile isJsSpace
  let l2 := match l1 with
    | '$' :: r => r
    | _ => l1
  let l3 := l2.dropWhile isJsSpace
  let amt := l3.takeWhile isDigitDot
  if amt.isEmpty then none else some amt

/-- Backtracking for the \w+ capture of formats A and C: the JS engine tries
    the longest capture first and gives characters back until the rest of the
    pattern (\s*\$?\s*([\d.]+)) matches.  k counts the capture length tried. -/
def tryCapture (l : List Char) : ℕ → Option (List Char × List Char)
  | 0 => none
  | k + 1 =>
    match matchAmountTail (l.drop (k + 1)) with
    | some amt => some (l.take (k + 1), amt)
    | none => tryCapture l k

/-- One anchored attempt of kw\s+@(\w+)\s*\$?\s*([\d.]+) (formats A and C of
    parsePaymentCommand, with kw = send resp. pay), returning the
    (recipient, amount) captures. -/
def matchKwUserAmount (kw l : List Char) : Option (List Char × List Char) :=
  if startsWithCI kw l then
    let r0 := l.drop kw.length
    if (r0.takeWhile isJsSpace).isEmpty then none
    else
      match r0.dropWhile isJsSpace with
      | '@' :: r1 => tryCapture r1 (r1.takeWhile isWordChar).length
      | _ => none
  else none

/-- Leftmost search for matchKwUserAmount, as JS String.match does. -/
def searchKwUserAmount (kw : List Char) : List Char → Option (List Char × List Char)
  | [] => none
  | c :: tl =>
    match matchKwUserAmount kw (c :: tl) with
    | some res => some res
    | none => searchKwUserAmount kw tl

def sendKw : List Char := ['s', 'e', 'n', 'd']

def payKw : List Char := ['p', 'a', 'y']

def toKw : List Char := ['t', 'o']

/-- One anchored attempt of send\s*\$?\s*([\d.]+)\s+to\s+@(\w+) (format B of
    parsePaymentCommand in src/unnamed/part_001), returning the
    (amount, recipient) captures.  All adjacent character classes are
    disjoint, so greedy matching is again deterministic. -/
def matchSendToUser (l : List Char) : Option (List Char × List Char) :=
  if startsWithCI sendKw l then
    let r0 := (l.drop 4).dropWhile isJsSpace
    let r1 := match r0 with
      | '$' :: r => r
      | _ => r0
    let r2 := r1.dropWhile isJsSpace
    let amt := r2.takeWhile isDigitDot
    if amt.isEmpty then none
    else
      let r3 := r2.drop amt.length
      if (r3.takeWhile isJsSpace).isEmpty then none
      else
        let r4 := r3.dropWhile isJsSpace
        if startsWithCI toKw r4 then
          let r5 := r4.drop 2
          if (r5.takeWhile isJsSpace).isEmpty then none
          else
            match r5.dropWhile isJsSpace with
            | '@' :: r6 =>
              let run := r6.takeWhile isWordChar
              if run.isEmpty then none else some (amt, run)
            | _ => none
        else none
  else none

/-- Leftmost search for matchSendToUser. -/
def searchSendToUser : List Char → Option (List Char × List Char)
  | [] => none
  | c :: tl =>
    match matchSendToUser (c :: tl) with
    | some res => some res
    | none => searchSendToUser tl

/-- Parsed payment intent: recipient capture and amount; amount none models a
    NaN result of parseFloat. -/
structure Intent where
  recipient : String
  amount : Option ℚ
deriving Repr, DecidableEq

/-- parsePaymentCommand of src/unnamed/part_001 lines 207 to 224: try format A
    (send @user $N), then format B (send $N to @user), then format C
    (pay @user $N), each case-insensitively on the trimmed text; a falsy
    (empty) input yields null.  The SQLite variant src/server.js lines 240 to
    257 lacks format C and makes the "to" of format B optional. -/
def parsePaymentCommand (text : String) : Option Intent :=
  if text = "" then none
  else
    let t := jsTrim text.toList
    match searchKwUserAmount sendKw t with
    | some (rcpt, amt) => some ⟨String.mk rcpt, jsParseFloat amt⟩
    | none =>
      match searchSendToUser t with
      | some (amt, rcpt) => some ⟨String.mk rcpt, jsParseFloat amt⟩
      | none =>
        match searchKwUserAmount payKw t with
        | some (rcpt, amt) => some ⟨String.mk rcpt, jsParseFloat amt⟩
        | none => none

/-! Data model: the payments collection, the backend_users collection and the
    last_seen_tweet_id watermark of src/unnamed/part_001 (same columns as the
    payments and users tables of src/server.js). -/

/-- One document of the payments collection, as written by recordPayment. -/
structure PaymentRecord where
  tweet_id : ℕ
  sender_username : String
  recipient_username : String
  amount : ℚ
  status : String
  claimed_by : Option String
  tx_signature : Option String
  created_at : ℕ
deriving Repr, DecidableEq

/-- One document of the backend_users collection (only the fields the claim
    flow reads or writes). -/
structure UserRec where
  x_username : String
  wallet_address : Option String
  total_sent : ℚ
  total_claimed : ℚ
deriving Repr, DecidableEq

structure Store where
  payments : List PaymentRecord
  users : List UserRec
deriving Repr, DecidableEq

def emptyStore : Store := ⟨[], []⟩

/-- normalizeHandle of src/unnamed/part_001 lines 95 to 98: strip one leading
    at-sign and lowercase; falsy input yields the empty string. -/
def normalizeHandle (h : String) : String :=
  if h = "" then ""
  else
    let l := match h.toList with
      | '@' :: r => r
      | l => l
    String.mk (l.map Char.toLower)

/-- Point lookup of a payment by its tweet id (the Firestore document id,
    resp. the tweet_id unique column in SQLite). -/
def findPayment (ps : List PaymentRecord) (id : ℕ) : Option PaymentRecord :=
  ps.find? (fun p => decide (p.tweet_id = id))

/-- ensureUser of src/unnamed/part_001 lines 100 to 116: create the user
    document if absent (with no wallet), otherwise leave it untouched. -/
def ensureUser (us : List UserRec) (name : String) : List UserRec :=
  let h := normalizeHandle name
  if us.any (fun u => decide (u.x_username = h)) then us
  else us ++ [⟨h, none, 0, 0⟩]

/-- The logical-duplicate range query of recordPayment: any record with the
    same (sender_username, recipient_username, amount) created in the last
    120 minutes (created_at at or after now minus 120). -/
def isLogicalDup (ps : List PaymentRecord) (now : ℕ) (s r : String) (a : ℚ) : Bool :=
  ps.any (fun p => decide (p.sender_username = s ∧ p.recipient_username = r ∧
    p.amount = a ∧ now ≤ p.created_at + 120))

inductive IngestDecision
  | exactReplay
  | logicalDuplicate
  | admitted
deriving Repr, DecidableEq

/-- The decision structure of recordPayment (src/unnamed/part_001 lines 154 to
    205, src/server.js lines 198 to 238): the exact-replay point lookup on the
    tweet id runs first; only if it misses does the logical-duplicate range
    query run. -/
def classifyCandidate (st : Store) (now : ℕ) (sender recipient : String) (a : ℚ)
    (tweet_id : ℕ) : IngestDecision :=
  if (findPayment st.payments tweet_id).isSome then IngestDecision.exactReplay
  else if isLogicalDup st.payments now (normalizeHandle sender) (normalizeHandle recipient) a then
    IngestDecision.logicalDuplicate
  else IngestDecision.admitted

/-- recordPayment: skip exact replays and logical duplicates, otherwise insert
    a new pending record and ensure both users exist. -/
def recordPayment (st : Store) (now : ℕ) (sender recipient : String) (a : ℚ)
    (tweet_id : ℕ) : Store :=
  let s := normalizeHandle sender
  let r := normalizeHandle recipient
  match classifyCandidate st now sender recipient a tweet_id with
  | IngestDecision.exactReplay => st
  | IngestDecision.logicalDuplicate => st
  | IngestDecision.admitted =>
    { payments := st.payments ++ [⟨tweet_id, s, r, a, "pending", none, none, now⟩],
      users := ensureUser (ensureUser st.users s) r }

/-! The tweet scanner runScheduledTweetCheck (src/unnamed/part_001 lines 1062
    to 1141, src/server.js lines 716 to 798). -/

/-- One candidate message of a scan batch.  The referenced_tweets check of the
    code (any reference of type retweeted or quoted) is modelled by the flag. -/
structure Tweet where
  id : ℕ
  author_id : String
  text : String
  is_ref_retweet_or_quote : Bool
deriving Repr, DecidableEq

/-- Substring containment on character lists (JS String.prototype.includes). -/
def containsChars (needle : List Char) : List Char → Bool
  | [] => needle.isEmpty
  | c :: tl => needle.isPrefixOf (c :: tl) || containsChars needle tl

/-- The manual-RT skip of the scanner loop: the lowercased text starts with
    "rt " or contains " rt @" or a newline followed by "rt ". -/
def rtStyle (lowerText : List Char) : Bool :=
  List.isPrefixOf ['r', 't', ' '] lowerText ||
    containsChars [' ', 'r', 't', ' ', '@'] lowerText ||
    containsChars ['\n', 'r', 't', ' '] lowerText

/-- users[tweet.author_id] || tweet.author_id || "unknown" of the scanner. -/
def resolveSender (authors : List (String × String)) (author_id : String) : String :=
  match authors.find? (fun u => decide (u.1 = author_id)) with
  | some u => u.2
  | none => if author_id = "" then "unknown" else author_id

/-- The watermark update inside the loop:
    if (!newestId || BigInt(tweet.id) > BigInt(newestId)) newestId = tweet.id. -/
def bumpNewest (newest : Option ℕ) (id : ℕ) : Option ℕ :=
  match newest with
  | none => some id
  | some w => if w < id then some id else some w

/-- Whether the scanner loop skips the candidate by continue, before the
    watermark update: manual-RT text or a retweet/quote reference. -/
def skipsTweet (tw : Tweet) : Bool :=
  rtStyle (tw.text.toList.map Char.toLower) || tw.is_ref_retweet_or_quote

/-- One iteration of the scanner loop: skipped candidates leave both the store
    and the newest-id accumulator unchanged (the continue statements come
    before the watermark update); otherwise parse, admit through recordPayment
    when the intent has a truthy recipient and a finite amount, and bump the
    newest id. -/
def scanTweet (authors : List (String × String)) (now : ℕ) (acc : Store × Option ℕ)
    (tw : Tweet) : Store × Option ℕ :=
  if skipsTweet tw then acc
  else
    let st' :=
      match parsePaymentCommand tw.text with
      | some intent =>
        match intent.amount with
        | some amt =>
          if intent.recipient ≠ "" then
            recordPayment acc.1 now (resolveSender authors tw.author_id) intent.recipient amt tw.id
          else acc.1
        | none => acc.1
      | none => acc.1
    (st', bumpNewest acc.2 tw.id)

/-- The whole batch loop of runScheduledTweetCheck, starting from the stored
    last_seen_tweet_id watermark; the resulting newest id is persisted once,
    after the loop. -/
def runBatch (authors : List (String × String)) (now : ℕ) (st : Store)
    (lastSeen : Option ℕ) (tweets : List Tweet) : Store × Option ℕ :=
  tweets.foldl (scanTweet authors now) (st, lastSeen)

/-! The claim route POST /api/claim (src/unnamed/part_001 lines 399 to 601;
    src/server.js lines 459 to 652 is the same flow except that its record
    query also filters on the recipient, folding the wrong-claimant case into
    the not-found response).  The chain client is external: the fresh
    authorization snapshot, the vault keypair configuration and the outcome of
    the transfer submission enter as parameters. -/

/-- Result of getSenderFundStatus for the sender wallet: on-chain USDC
    balance, amount delegated to the vault, and the authorized bit
    (delegate equals the vault and delegated amount positive). -/
structure FundStatus where
  balance : ℚ
  delegatedAmount : ℚ
  authorized : Bool
deriving Repr, DecidableEq

/-- The distinct responses of the claim route, in source order. -/
inductive ClaimResult
  | badRequest
  | notFound
  | forbidden
  | alreadyClaimed
  | senderNoWallet
  | notAuthorized (balance delegated : ℚ)
  | allowanceTooLow (balance delegated required : ℚ)
  | balanceTooLow (balance delegated required : ℚ)
  | vaultMissing
  | transferFailed
  | success (amount : ℚ) (amountMinor : ℤ) (txSignature : String)
deriving Repr, DecidableEq

/-- The PaymentRequired class of errors: insufficient authorization or funds
    at claim time (the HTTP 400 responses carrying a sender_status body). -/
def ClaimResult.isPaymentRequired : ClaimResult → Bool
  | ClaimResult.notAuthorized _ _ => true
  | ClaimResult.allowanceTooLow _ _ _ => true
  | ClaimResult.balanceTooLow _ _ _ => true
  | _ => false

def ClaimResult.isSuccess : ClaimResult → Bool
  | ClaimResult.success _ _ _ => true
  | _ => false

def lookupUser (us : List UserRec) (h : String) : Option UserRec :=
  us.find? (fun u => decide (u.x_username = h))

/-- The conversion of the payment amount to USDC minor units:
    Math.floor(payment.amount * 1_000_000). -/
def toMinorUnits (a : ℚ) : ℤ := ⌊a * 1000000⌋

/-- The single payments-collection update of the claim route: set status to
    completed, claimed_by to the claimer wallet and tx_signature, in one
    update keyed on the tweet id. -/
def markCompleted (ps : List PaymentRecord) (id : ℕ) (wallet sig : String) :
    List PaymentRecord :=
  ps.map (fun p =>
    if p.tweet_id = id then
      { p with status := "completed", claimed_by := some wallet, tx_signature := some sig }
    else p)

/-- Firestore set-with-merge of the recipient stats: increment total_claimed,
    creating the document when absent. -/
def bumpClaimed (us : List UserRec) (h : String) (amt : ℚ) : List UserRec :=
  if us.any (fun u => decide (u.x_username = h)) then
    us.map (fun u => if u.x_username = h then { u with total_claimed := u.total_claimed + amt } else u)
  else us ++ [⟨h, none, 0, amt⟩]

/-- Firestore set-with-merge of the sender stats: increment total_sent. -/
def bumpSent (us : List UserRec) (h : String) (amt : ℚ) : List UserRec :=
  if us.any (fun u => decide (u.x_username = h)) then
    us.map (fun u => if u.x_username = h then { u with total_sent := u.total_sent + amt } else u)
  else us ++ [⟨h, none, amt, 0⟩]

/-- The claim route, in source order: required-field check, load by tweet id
    (404 if absent), recipient check (403), already-claimed check, sender
    wallet lookup, fresh fund checks (authorized, allowance, balance), vault
    keypair check, transfer submission, and only then the single record
    update to completed.  Missing body fields are modelled as empty strings;
    transferResult none models a failed or timed-out on-chain transfer. -/
def claimPayment (st : Store) (tweet_id : ℕ) (wallet username : String)
    (fund : FundStatus) (vaultConfigured : Bool) (transferResult : Option String) :
    ClaimResult × Store :=
  if wallet = "" ∨ username = "" then (ClaimResult.badRequest, st)
  else
    match findPayment st.payments tweet_id with
    | none => (ClaimResult.notFound, st)
    | some payment =>
      if payment.recipient_username ≠ normalizeHandle username then (ClaimResult.forbidden, st)
      else if payment.status = "completed" ∨ payment.claimed_by.isSome then
        (ClaimResult.alreadyClaimed, st)
      else
        match (lookupUser st.users payment.sender_username).bind (fun u => u.wallet_address) with
        | none => (ClaimResult.senderNoWallet, st)
        | some _ =>
          if fund.authorized = false then
            (ClaimResult.notAuthorized fund.balance fund.delegatedAmount, st)
          else if fund.delegatedAmount < payment.amount then
            (ClaimResult.allowanceTooLow fund.balance fund.delegatedAmount payment.amount, st)
          else if fund.balance < payment.amount then
            (ClaimResult.balanceTooLow fund.balance fund.delegatedAmount payment.amount, st)
          else if vaultConfigured = false then (ClaimResult.vaultMissing, st)
          else
            match transferResult with
            | none => (ClaimResult.transferFailed, st)
            | some sig =>
              (ClaimResult.success payment.amount (toMinorUnits payment.amount) sig,
               { payments := markCompleted st.payments tweet_id wallet sig,
                 users := bumpSent (bumpClaimed st.users (normalizeHandle username) payment.amount)
                   payment.sender_username payment.amount })

/-! Interleaving model of two concurrent claim requests for the same record.
    Each handler first awaits the record load, and every later step (the
    status and claimed_by check, the transfer submission, the record update)
    works from that loaded snapshot; the update is unconditional, with no
    compare-and-set guard on the current status.  A handler is therefore two
    atomic phases against the shared record: load, then check-and-settle.
    Merging transfer submission and record write into one atomic phase is
    conservative; the race below exists already at this granularity. -/

structure RaceShared where
  status : String
  claimed_by : Option String
  transfersSubmitted : ℕ
deriving Repr, DecidableEq

inductive RacePhase
  | start
  | loaded (snapStatus : String) (snapClaimed : Option String)
  | finished (won : Bool)
deriving Repr, DecidableEq

structure RaceConfig where
  shared : RaceShared
  claimerA : RacePhase
  claimerB : RacePhase
deriving Repr, DecidableEq

/-- One atomic phase of a claim handler (fund checks assumed to pass, the
    vault configured and the chain transfer succeeding, as in a plain
    double-claim of a well-funded payment). -/
def raceStep (sh : RaceShared) (ph : RacePhase) (wallet : String) :
    RaceShared × RacePhase :=
  match ph with
  | RacePhase.start => (sh, RacePhase.loaded sh.status sh.claimed_by)
  | RacePhase.loaded ss sc =>
    if ss = "completed" ∨ sc.isSome then (sh, RacePhase.finished false)
    else
      ({ status := "completed", claimed_by := some wallet,
         transfersSubmitted := sh.transfersSubmitted + 1 },
       RacePhase.finished true)
  | RacePhase.finished w => (sh, RacePhase.finished w)

/-- Run a schedule: true schedules claimer A, false claimer B. -/
def raceRun (cfg : RaceConfig) (sched : List Bool) : RaceConfig :=
  sched.foldl
    (fun c who =>
      if who then
        let sp := raceStep c.shared c.claimerA "walletA"
        { c with shared := sp.1, claimerA := sp.2 }
      else
        let sp := raceStep c.shared c.claimerB "walletB"
        { c with shared := sp.1, claimerB := sp.2 })
    cfg

/-- A pending record with neither claimer started. -/
def raceInit : RaceConfig := ⟨⟨"pending", none, 0⟩, RacePhase.start, RacePhase.start⟩

/-! Measurement helpers and concrete fixtures used in the statements below. -/

/-- Number of records with the given (sender, recipient, amount) triple. -/
def countTriple (ps : List PaymentRecord) (s r : String) (a : ℚ) : ℕ :=
  (ps.filter (fun p => decide (p.sender_username = s ∧ p.recipient_username = r ∧
    p.amount = a))).length

/-- The newest-id accumulator value a batch produces: the running maximum of
    the previous watermark and the ids of the candidates the loop does not
    skip before the watermark update. -/
def batchMaxSeen (w : ℕ) (tweets : List Tweet) : ℕ :=
  tweets.foldl (fun acc tw => if skipsTweet tw then acc else max acc tw.id) w

/-- A store with one pending five-dollar payment from bob to alice, bob having
    a registered wallet. -/
def stPending : Store :=
  ⟨[⟨1, "bob", "alice", 5, "pending", none, none, 0⟩], [⟨"bob", some "BW", 0, 0⟩]⟩

def scanAuthors : List (String × String) := [("u1", "bob")]

/-- A batch whose highest id belongs to a candidate the scanner skips as a
    manual RT. -/
def scanBatch : List Tweet :=
  [⟨5, "u1", "send @alice $3", false⟩, ⟨9, "u1", "rt hello", false⟩]

def selfAuthors : List (String × String) := [("a1", "alice")]

/-- A tweet by alice sending zero dollars to herself. -/
def selfTweet : Tweet := ⟨7, "a1", "send @alice $0", false⟩

/-! Shared helper lemmas. -/

theorem claimPayment_shape (st : Store) (tweet_id : ℕ) (wallet username : String)
    (fund : FundStatus) (vc : Bool) (tr : Option String) :
    (∃ e, claimPayment st tweet_id wallet username fund vc tr = (e, st) ∧
      e.isSuccess = false) ∨
    (∃ payment sig,
      findPayment st.payments tweet_id = some payment ∧
      payment.status ≠ "completed" ∧ payment.claimed_by = none ∧ tr = some sig ∧
      claimPayment st tweet_id wallet username fund vc tr =
        (ClaimResult.success payment.amount (toMinorUnits payment.amount) sig,
         { payments := markCompleted st.payments tweet_id wallet sig,
           users := bumpSent (bumpClaimed st.users (normalizeHandle username) payment.amount)
             payment.sender_username payment.amount })) := by
  unfold claimPayment
  split
  · exact Or.inl ⟨_, rfl, rfl⟩
  split
  next => exact Or.inl ⟨_, rfl, rfl⟩
  next payment hfind =>
    split
    next => exact Or.inl ⟨_, rfl, rfl⟩
    next hrecip =>
      split
      next => exact Or.inl ⟨_, rfl, rfl⟩
      next hclaimed =>
        split
        next => exact Or.inl ⟨_, rfl, rfl⟩
        next w hwallet =>
          split
          next => exact Or.inl ⟨_, rfl, rfl⟩
          next hauth =>
            split
            next => exact Or.inl ⟨_, rfl, rfl⟩
            next hallow =>
              split
              next => exact Or.inl ⟨_, rfl, rfl⟩
              next hbal =>
                split
                next => exact Or.inl ⟨_, rfl, rfl⟩
                next hvault =>
                  cases tr with
                  | none => exact Or.inl ⟨_, rfl, rfl⟩
                  | some sig =>
                    refine Or.inr ⟨payment, sig, hfind, ?_, ?_, rfl, rfl⟩
                    · exact fun hs => hclaimed (Or.inl hs)
                    · cases hcb : payment.claimed_by with
                      | none => rfl
                      | some x => exact absurd (Or.inr (by simp [hcb])) hclaimed

theorem markCompleted_mem {ps : List PaymentRecord} {id : ℕ} {w sig : String}
    {p' : PaymentRecord} (h : p' ∈ markCompleted ps id w sig) :
    p' ∈ ps ∨
      (p'.status = "completed" ∧ p'.claimed_by = some w ∧ p'.tx_signature = some sig) := by
  unfold markCompleted at h
  rcases List.mem_map.mp h with ⟨p, hp, hEq⟩
  by_cases hid : p.tweet_id = id
  · rw [if_pos hid] at hEq
    subst hEq
    exact Or.inr ⟨rfl, rfl, rfl⟩
  · rw [if_neg hid] at hEq
    subst hEq
    exact Or.inl hp

theorem isLogicalDup_eq_false {ps : List PaymentRecord} {now : ℕ} {s r : String} {a : ℚ}
    (h : ∀ p ∈ ps, ¬(p.sender_username = s ∧ p.recipient_username = r ∧
      p.amount = a ∧ now ≤ p.created_at + 120)) :
    isLogicalDup ps now s r a = false := by
  unfold isLogicalDup
  rw [← Bool.not_eq_true, List.any_eq_true]
  push_neg
  intro p hp
  simpa using h p hp

theorem findPayment_append {ps qs : List PaymentRecord} {id : ℕ}
    (h : findPayment ps id = none) :
    findPayment (ps ++ qs) id = findPayment qs id := by
  unfold findPayment at *
  rw [List.find?_append, h, Option.none_or]

theorem bumpNewest_some (w id : ℕ) : bumpNewest (some w) id = some (max w id) := by
  show (if w < id then some id else some w) = some (max w id)
  split
  · congr 1
    omega
  · congr 1
    omega

/-- C1.  The spec requires the pending to claim_in_progress transition to be a
    conditional (compare-and-set) update so that of two racing claimers
    exactly one settles.  The code has no such guard: each handler loads the
    record once and later checks and settles against that stale snapshot with
    an unconditional update.  In the interleaving where both handlers load
    before either settles, both pass the already-claimed check, both submit an
    on-chain transfer, and both report success: two settlements for one
    record, as the spec itself notes for this source (a real double-spend
    race). -/
theorem concurrent_claims_double_settle :
    raceRun raceInit [true, false, true, false] =
      ⟨⟨"completed", some "walletB", 2⟩, RacePhase.finished true, RacePhase.finished true⟩ ∧
    (raceRun raceInit [true, false, true, false]).shared.transfersSubmitted = 2 := by
  decide

/-- C3.  Ingesting a candidate whose tweet id is already present in the
    payment store is a no-op: recordPayment returns the store unchanged, so no
    second record appears and no existing record (completed or otherwise) is
    modified. -/
theorem reingest_same_id_noop (st : Store) (now : ℕ) (s r : String) (a : ℚ) (id : ℕ)
    (h : (findPayment st.payments id).isSome = true) :
    recordPayment st now s r a id = st := by
  simp [recordPayment, classifyCandidate, h]

/-- Witness for C3: re-ingesting tweet id 1 into a store already holding it
    changes nothing. -/
theorem reingest_same_id_noop_witness :
    (findPayment stPending.payments 1).isSome = true ∧
    recordPayment stPending 0 "x" "y" 7 1 = stPending :=
  ⟨by decide, reingest_same_id_noop stPending 0 "x" "y" 7 1 (by decide)⟩

/-- C10.  Every error return of the claim route leaves the payment store
    exactly as it was loaded; the route never writes claim_in_progress or
    failed; the only update it ever performs is the single update setting
    status completed together with claimed_by and the settlement signature,
    and (in any store whose statuses are pending or completed, as the
    ingestion path guarantees) the record it updates was pending. -/
theorem claim_error_frame (st : Store) (id : ℕ) (wallet username : String)
    (fund : FundStatus) (vc : Bool) (tr : Option String) :
    ((claimPayment st id wallet username fund vc tr).1.isSuccess = false →
      (claimPayment st id wallet username fund vc tr).2 = st) ∧
    ((claimPayment st id wallet username fund vc tr).1.isSuccess = true →
      ∃ payment sig, findPayment st.payments id = some payment ∧
        payment.status ≠ "completed" ∧ payment.claimed_by = none ∧ tr = some sig ∧
        (claimPayment st id wallet username fund vc tr).2.payments =
          markCompleted st.payments id wallet sig ∧
        ((∀ p ∈ st.payments, p.status = "pending" ∨ p.status = "completed") →
          payment.status = "pending")) ∧
    (∀ p' ∈ (claimPayment st id wallet username fund vc tr).2.payments,
      p' ∈ st.payments ∨ (p'.status = "completed" ∧ p'.claimed_by = some wallet)) := by
  rcases claimPayment_shape st id wallet username fund vc tr with
    ⟨e, he, hf⟩ | ⟨payment, sig, hfind, hst, hcb, htr, he⟩
  · refine ⟨fun _ => by rw [he], fun hs => ?_, fun p' hp' => ?_⟩
    · rw [he] at hs
      exact absurd hs (by simp [hf])
    · rw [he] at hp'
      exact Or.inl hp'
  · refine ⟨fun hs => ?_, fun _ => ?_, fun p' hp' => ?_⟩
    · rw [he] at hs
      simp [ClaimResult.isSuccess] at hs
    · refine ⟨payment, sig, hfind, hst, hcb, htr, by rw [he], fun hwf => ?_⟩
      rcases hwf payment (List.mem_of_find?_eq_some hfind) with h | h
      · exact h
      · exact absurd h hst
    · rw [he] at hp'
      rcases markCompleted_mem hp' with h | h
      · exact Or.inl h
      · exact Or.inr ⟨h.1, h.2.1⟩

/-- Witness for C10: a forbidden claim (wrong claimant) is not a success and
    leaves the concrete store untouched. -/
theorem claim_error_frame_witness :
    (claimPayment stPending 1 "AW" "mallory" ⟨10, 10, true⟩ true (some "sig")).1.isSuccess
      = false ∧
    (claimPayment stPending 1 "AW" "mallory" ⟨10, 10, true⟩ true (some "sig")).2 = stPending :=
  ⟨by decide,
   (claim_error_frame stPending 1 "AW" "mallory" ⟨10, 10, true⟩ true (some "sig")).1
     (by decide)⟩

/-- Counterexample for C2.  The claim states that an insufficient-allowance
    claim transitions the record to status failed.  On the code it does not:
    the route returns the PaymentRequired-class response without writing
    anything, so the record is still pending (and no record in the store is
    ever failed). -/
theorem claim_allowance_counterexample :
    claimPayment stPending 1 "AW" "alice" ⟨10, 2, true⟩ true (some "sig") =
      (ClaimResult.allowanceTooLow 10 2 5, stPending) ∧
    findPayment (claimPayment stPending 1 "AW" "alice" ⟨10, 2, true⟩ true
      (some "sig")).2.payments 1 =
      some ⟨1, "bob", "alice", 5, "pending", none, none, 0⟩ ∧
    (∀ p ∈ (claimPayment stPending 1 "AW" "alice" ⟨10, 2, true⟩ true
      (some "sig")).2.payments, p.status ≠ "failed") := by
  refine ⟨by decide, by decide, by decide⟩

/-- C2 (amended).  A claim on an existing pending record whose fresh
    authorization check shows the sender unauthorized, or the delegated
    allowance below the amount, or the balance below the amount, returns a
    PaymentRequired-class error and leaves the store unchanged: the record
    stays exactly as loaded (still pending) and is not completed.  (The claim
    as stated also requires a transition to status failed; the code never
    writes a failed status, see the counterexample.) -/
theorem claim_payment_required_leaves_pending (st : Store) (id : ℕ)
    (wallet username : String) (fund : FundStatus) (vc : Bool) (tr : Option String)
    (payment : PaymentRecord)
    (hw : wallet ≠ "") (hu : username ≠ "")
    (hfind : findPayment st.payments id = some payment)
    (hrcpt : payment.recipient_username = normalizeHandle username)
    (hst : payment.status ≠ "completed") (hcb : payment.claimed_by = none)
    (hwal : ((lookupUser st.users payment.sender_username).bind
      (fun u => u.wallet_address)).isSome = true)
    (hfail : fund.authorized = false ∨ fund.delegatedAmount < payment.amount ∨
      fund.balance < payment.amount) :
    (claimPayment st id wallet username fund vc tr).1.isPaymentRequired = true ∧
    (claimPayment st id wallet username fund vc tr).2 = st := by
  have hcond : ¬(wallet = "" ∨ username = "") := by
    push_neg
    exact ⟨hw, hu⟩
  obtain ⟨wa, hwa⟩ := Option.isSome_iff_exists.mp hwal
  by_cases hauth : fund.authorized = false
  · constructor <;>
      simp [claimPayment, hcond, hfind, hwa, hrcpt, hst, hcb, hauth,
        ClaimResult.isPaymentRequired]
  · have hauth' : fund.authorized = true := by
      revert hauth
      cases fund.authorized <;> simp
    by_cases hallow : fund.delegatedAmount < payment.amount
    · constructor <;>
        simp [claimPayment, hcond, hfind, hwa, hrcpt, hst, hcb, hauth', hallow,
          ClaimResult.isPaymentRequired]
    · have hbal : fund.balance < payment.amount := by
        rcases hfail with h | h | h
        · exact absurd h (by simp [hauth'])
        · exact absurd h hallow
        · exact h
      constructor <;>
        simp [claimPayment, hcond, hfind, hwa, hrcpt, hst, hcb, hauth', hallow, hbal,
          ClaimResult.isPaymentRequired]

/-- Witness for C2: the concrete insufficient-allowance claim returns a
    PaymentRequired-class error and leaves the store unchanged. -/
theorem claim_payment_required_witness :
    (claimPayment stPending 1 "AW" "alice" ⟨10, 2, true⟩ true (some "sig")).1.isPaymentRequired
      = true ∧
    (claimPayment stPending 1 "AW" "alice" ⟨10, 2, true⟩ true (some "sig")).2 = stPending :=
  claim_payment_required_leaves_pending stPending 1 "AW" "alice" ⟨10, 2, true⟩ true
    (some "sig") ⟨1, "bob", "alice", 5, "pending", none, none, 0⟩
    (by decide) (by decide) (by decide) (by decide) (by decide) (by decide) (by decide)
    (Or.inr (Or.inl (by decide)))

/-- C7.  A claim for an absent tweet id fails with NotFound; a claim by a
    handle other than the records recipient fails with Forbidden, a response
    distinct from NotFound; in both cases the store is unchanged.  (This
    matches the firebase variant src/unnamed/part_001; the SQLite variant
    src/server.js filters the lookup by recipient as well, folding the
    wrong-claimant case into NotFound.) -/
theorem claim_notfound_forbidden :
    (∀ (st : Store) (id : ℕ) (wallet username : String) (fund : FundStatus)
      (vc : Bool) (tr : Option String), wallet ≠ "" → username ≠ "" →
      findPayment st.payments id = none →
      claimPayment st id wallet username fund vc tr = (ClaimResult.notFound, st)) ∧
    (∀ (st : Store) (id : ℕ) (wallet username : String) (fund : FundStatus)
      (vc : Bool) (tr : Option String) (payment : PaymentRecord),
      wallet ≠ "" → username ≠ "" →
      findPayment st.payments id = some payment →
      payment.recipient_username ≠ normalizeHandle username →
      claimPayment st id wallet username fund vc tr = (ClaimResult.forbidden, st)) ∧
    ClaimResult.forbidden ≠ ClaimResult.notFound := by
  refine ⟨fun st id wallet username fund vc tr hw hu hfind => ?_,
    fun st id wallet username fund vc tr payment hw hu hfind hrcpt => ?_, by decide⟩
  · have hcond : ¬(wallet = "" ∨ username = "") := by
      push_neg
      exact ⟨hw, hu⟩
    simp [claimPayment, hcond, hfind]
  · have hcond : ¬(wallet = "" ∨ username = "") := by
      push_neg
      exact ⟨hw, hu⟩
    simp [claimPayment, hcond, hfind, hrcpt]

/-- Witness for C7: both error responses on concrete inputs. -/
theorem claim_notfound_forbidden_witness :
    claimPayment emptyStore 1 "AW" "alice" ⟨10, 10, true⟩ true (some "sig") =
      (ClaimResult.notFound, emptyStore) ∧
    claimPayment stPending 1 "AW" "mallory" ⟨10, 10, true⟩ true (some "sig") =
      (ClaimResult.forbidden, stPending) :=
  ⟨claim_notfound_forbidden.1 emptyStore 1 "AW" "alice" ⟨10, 10, true⟩ true (some "sig")
    (by decide) (by decide) (by decide),
   claim_notfound_forbidden.2.1 stPending 1 "AW" "mallory" ⟨10, 10, true⟩ true (some "sig")
    ⟨1, "bob", "alice", 5, "pending", none, none, 0⟩
    (by decide) (by decide) (by decide) (by decide)⟩

/-- C9.  The amount-to-minor-unit conversion is Math.floor of amount times
    one million: it never exceeds the exact product (truncation, never
    rounding up), every successful claim submits exactly that conversion of
    the recorded amount, and 5.999999 converts to 5999999 minor units, not
    6000000. -/
theorem minor_units_truncation :
    (∀ a : ℚ, (toMinorUnits a : ℚ) ≤ a * 1000000) ∧
    (∀ (st : Store) (id : ℕ) (wallet username : String) (fund : FundStatus)
      (vc : Bool) (tr : Option String) (q : ℚ) (m : ℤ) (sig : String),
      (claimPayment st id wallet username fund vc tr).1 = ClaimResult.success q m sig →
      m = toMinorUnits q) ∧
    toMinorUnits (5999999 / 1000000 : ℚ) = 5999999 ∧ ((5999999 : ℤ) ≠ 6000000) := by
  refine ⟨fun a => Int.floor_le _, ?_, ?_, by decide⟩
  · intro st id wallet username fund vc tr q m sig h
    rcases claimPayment_shape st id wallet username fund vc tr with
      ⟨e, he, hf⟩ | ⟨payment, sig', _, _, _, _, he⟩
    · rw [he] at h
      rw [show (e, st).1 = e from rfl] at h
      rw [h] at hf
      simp [ClaimResult.isSuccess] at hf
    · rw [he] at h
      injection h with h1 h2 h3
      rw [← h2, h1]
  · have hq : (5999999 / 1000000 : ℚ) * 1000000 = ((5999999 : ℤ) : ℚ) := by norm_num
    unfold toMinorUnits
    rw [hq, Int.floor_intCast]

/-- Witness for C9: the concrete successful claim of the five-dollar payment
    submits toMinorUnits 5 minor units, which is at most 5 times one million. -/
theorem minor_units_truncation_witness :
    toMinorUnits 5 = toMinorUnits 5 ∧ ((toMinorUnits 5 : ℚ) ≤ 5 * 1000000) :=
  ⟨minor_units_truncation.2.1 stPending 1 "AW" "alice" ⟨10, 10, true⟩ true (some "sig")
    5 (toMinorUnits 5) "sig" rfl,
   minor_units_truncation.1 5⟩

/-- C4.  Logical-duplicate suppression: with the store clean of the triple, a
    first candidate is admitted (one record with that sender, recipient and
    amount); a second candidate with a different id observed at or within 120
    minutes of the first records creation is suppressed (the store is
    unchanged, still one record); observed later than 120 minutes it is
    admitted (two records).  Moreover the exact-replay point lookup on the id
    runs before the duplicate range query: any candidate whose id is already
    present classifies as an exact replay, regardless of the duplicate
    condition. -/
theorem duplicate_window_suppression (st : Store) (now1 now2 : ℕ) (s r : String) (a : ℚ)
    (id1 id2 : ℕ) (hid : id1 ≠ id2)
    (h1 : findPayment st.payments id1 = none)
    (h2 : findPayment st.payments id2 = none)
    (hclean : ∀ p ∈ st.payments,
      ¬(p.sender_username = normalizeHandle s ∧ p.recipient_username = normalizeHandle r ∧
        p.amount = a)) :
    countTriple (recordPayment st now1 s r a id1).payments
      (normalizeHandle s) (normalizeHandle r) a = 1 ∧
    (now2 ≤ now1 + 120 →
      recordPayment (recordPayment st now1 s r a id1) now2 s r a id2 =
        recordPayment st now1 s r a id1) ∧
    (now1 + 120 < now2 →
      countTriple (recordPayment (recordPayment st now1 s r a id1) now2 s r a id2).payments
        (normalizeHandle s) (normalizeHandle r) a = 2) ∧
    (∀ (st' : Store) (now' : ℕ) (s' r' : String) (a' : ℚ) (id' : ℕ),
      (findPayment st'.payments id').isSome = true →
      classifyCandidate st' now' s' r' a' id' = IngestDecision.exactReplay) := by
  have hdup1 : isLogicalDup st.payments now1 (normalizeHandle s) (normalizeHandle r) a
      = false :=
    isLogicalDup_eq_false (fun p hp hc => hclean p hp ⟨hc.1, hc.2.1, hc.2.2.1⟩)
  have hclass1 : classifyCandidate st now1 s r a id1 = IngestDecision.admitted := by
    simp [classifyCandidate, h1, hdup1]
  have he1 : recordPayment st now1 s r a id1 =
      { payments := st.payments ++
          [⟨id1, normalizeHandle s, normalizeHandle r, a, "pending", none, none, now1⟩],
        users := ensureUser (ensureUser st.users (normalizeHandle s)) (normalizeHandle r) } := by
    unfold recordPayment
    rw [hclass1]
  have hfilter0 : st.payments.filter
      (fun p => decide (p.sender_username = normalizeHandle s ∧
        p.recipient_username = normalizeHandle r ∧ p.amount = a)) = [] := by
    rw [List.filter_eq_nil_iff]
    intro p hp
    simpa using hclean p hp
  have hfind2 : findPayment (st.payments ++
      [⟨id1, normalizeHandle s, normalizeHandle r, a, "pending", none, none, now1⟩]) id2
      = none := by
    rw [findPayment_append h2]
    simp [findPayment, List.find?, hid]
  have hanyclean : ∀ n : ℕ, st.payments.any
      (fun p => decide (p.sender_username = normalizeHandle s ∧
        p.recipient_username = normalizeHandle r ∧ p.amount = a ∧ n ≤ p.created_at + 120))
      = false := by
    intro n
    have := @isLogicalDup_eq_false st.payments n (normalizeHandle s) (normalizeHandle r) a
      (fun p hp hc => hclean p hp ⟨hc.1, hc.2.1, hc.2.2.1⟩)
    unfold isLogicalDup at this
    exact this
  refine ⟨?_, ?_, ?_, fun st' now' s' r' a' id' h => by simp [classifyCandidate, h]⟩
  · rw [he1]
    simp [countTriple, List.filter_append, hfilter0]
    exact fun p hp hs hr ha => hclean p hp ⟨hs, hr, ha⟩
  · intro hw
    set st1 := recordPayment st now1 s r a id1 with hst1
    have hdup2 : isLogicalDup (st.payments ++
        [⟨id1, normalizeHandle s, normalizeHandle r, a, "pending", none, none, now1⟩])
        now2 (normalizeHandle s) (normalizeHandle r) a = true := by
      unfold isLogicalDup
      rw [List.any_append, hanyclean now2]
      simp [hw]
    have hclass2 : classifyCandidate st1 now2 s r a id2 =
        IngestDecision.logicalDuplicate := by
      rw [he1]
      simp [classifyCandidate, hfind2, hdup2]
    unfold recordPayment
    rw [hclass2]
  · intro hw
    set st1 := recordPayment st now1 s r a id1 with hst1
    have hdup2 : isLogicalDup (st.payments ++
        [⟨id1, normalizeHandle s, normalizeHandle r, a, "pending", none, none, now1⟩])
        now2 (normalizeHandle s) (normalizeHandle r) a = false := by
      unfold isLogicalDup
      rw [List.any_append, hanyclean now2]
      simp [show ¬(now2 ≤ now1 + 120) from by omega]
    have hclass2 : classifyCandidate st1 now2 s r a id2 = IngestDecision.admitted := by
      rw [he1]
      simp [classifyCandidate, hfind2, hdup2]
    have he2 : recordPayment st1 now2 s r a id2 =
        { payments := st1.payments ++
            [⟨id2, normalizeHandle s, normalizeHandle r, a, "pending", none, none, now2⟩],
          users := ensureUser (ensureUser st1.users (normalizeHandle s))
            (normalizeHandle r) } := by
      unfold recordPayment
      rw [hclass2]
    rw [he2, he1]
    simp [countTriple, List.filter_append, hfilter0]
    exact fun p hp hs hr ha => hclean p hp ⟨hs, hr, ha⟩

/-- Witness for C4: a fresh ingestion into the empty store admits one record. -/
theorem duplicate_window_suppression_witness :
    (1 : ℕ) ≠ 2 ∧
    countTriple (recordPayment emptyStore 0 "bob" "alice" 3 1).payments
      (normalizeHandle "bob") (normalizeHandle "alice") 3 = 1 :=
  ⟨by decide,
   (duplicate_window_suppression emptyStore 0 121 "bob" "alice" 3 1 2
     (by decide) (by decide) (by decide) (by decide)).1⟩

/-! Watermark lemmas for C5. -/

theorem le_batchMaxSeen (tweets : List Tweet) : ∀ w : ℕ, w ≤ batchMaxSeen w tweets := by
  induction tweets with
  | nil => exact fun w => Nat.le_refl w
  | cons tw tl ih =>
    intro w
    by_cases h : skipsTweet tw
    · simpa [batchMaxSeen, h] using ih w
    · have h1 : w ≤ max w tw.id := Nat.le_max_left w tw.id
      have h2 := ih (max w tw.id)
      simpa [batchMaxSeen, h] using Nat.le_trans h1 h2

theorem runBatch_watermark_eq (tweets : List Tweet) :
    ∀ (authors : List (String × String)) (now : ℕ) (st : Store) (w : ℕ),
      (runBatch authors now st (some w) tweets).2 = some (batchMaxSeen w tweets) := by
  induction tweets with
  | nil => intro authors now st w; rfl
  | cons tw tl ih =>
    intro authors now st w
    by_cases h : skipsTweet tw
    · have : runBatch authors now st (some w) (tw :: tl) =
          runBatch authors now st (some w) tl := by
        simp [runBatch, scanTweet, h]
      rw [this, ih]
      simp [batchMaxSeen, h]
    · have : runBatch authors now st (some w) (tw :: tl) =
          runBatch authors now (scanTweet authors now (st, some w) tw).1
            (some (max w tw.id)) tl := by
        simp [runBatch, scanTweet, h, bumpNewest_some]
      rw [this, ih]
      simp [batchMaxSeen, h]

/-- Counterexample for C5.  The claim says the persisted watermark is the
    maximum id over all candidates of the batch, including skipped ones.  In
    the code the manual-RT and retweet/quote skips continue past the
    watermark update, so a skipped candidate with the highest id is excluded:
    for the concrete batch the maximum over all candidates is 9 but the
    persisted watermark is 5. -/
theorem watermark_counterexample :
    (runBatch scanAuthors 0 emptyStore none scanBatch).2 = some 5 ∧
    scanBatch.foldl (fun acc tw => max acc tw.id) 0 = 9 ∧ (5 : ℕ) ≠ 9 := by
  refine ⟨by decide, by decide, by decide⟩

/-- C5 (amended).  After a fully processed batch the watermark accumulator,
    persisted once after the loop, equals the maximum (as unbounded integers)
    of the previous watermark and the ids of the candidates not skipped by
    the retweet/quote and manual-RT filters (candidates that fail to parse or
    produce no payment are included); consequently the watermark never
    decreases across cycles.  (The claim as stated includes the ids of
    skipped candidates in the maximum; the code excludes them, see the
    counterexample.) -/
theorem watermark_max_and_monotone (authors : List (String × String)) (now : ℕ)
    (st : Store) (w : ℕ) (tweets : List Tweet) :
    (runBatch authors now st (some w) tweets).2 = some (batchMaxSeen w tweets) ∧
    w ≤ batchMaxSeen w tweets :=
  ⟨runBatch_watermark_eq tweets authors now st w, le_batchMaxSeen tweets w⟩

/-! Parser lemmas for C6 and C8. -/

theorem matchKwUserAmount_eq_none {kw l : List Char} (h : startsWithCI kw l = false) :
    matchKwUserAmount kw l = none := by
  unfold matchKwUserAmount
  rw [h]
  simp

theorem searchKwUserAmount_eq_none {kw : List Char} :
    ∀ l, ciContains kw l = false → searchKwUserAmount kw l = none := by
  intro l
  induction l with
  | nil => intro _; rfl
  | cons c tl ih =>
    intro h
    simp only [ciContains, Bool.or_eq_false_iff] at h
    simp [searchKwUserAmount, matchKwUserAmount_eq_none h.1, ih h.2]

theorem matchSendToUser_eq_none {l : List Char} (h : startsWithCI sendKw l = false) :
    matchSendToUser l = none := by
  unfold matchSendToUser
  rw [h]
  simp

theorem searchSendToUser_eq_none :
    ∀ l, ciContains sendKw l = false → searchSendToUser l = none := by
  intro l
  induction l with
  | nil => intro _; rfl
  | cons c tl ih =>
    intro h
    simp only [ciContains, Bool.or_eq_false_iff] at h
    simp [searchSendToUser, matchSendToUser_eq_none h.1, ih h.2]

theorem matchAmountTail_nil : matchAmountTail [] = none := rfl

theorem tryCapture_ne_nil :
    ∀ (k : ℕ) (l cap amt : List Char), tryCapture l k = some (cap, amt) → cap ≠ [] := by
  intro k
  induction k with
  | zero =>
    intro l cap amt h
    exact absurd h (by simp [tryCapture])
  | succ k ih =>
    intro l cap amt h
    unfold tryCapture at h
    cases hm : matchAmountTail (l.drop (k + 1)) with
    | some amt2 =>
      rw [hm] at h
      injection h with h2
      injection h2 with hcap hamt
      cases l with
      | nil => exact absurd hm (by simp [matchAmountTail_nil])
      | cons c cs =>
        rw [← hcap]
        simp [List.take]
    | none =>
      rw [hm] at h
      exact ih l cap amt h

theorem matchKwUserAmount_ne_nil {kw l cap amt : List Char}
    (h : matchKwUserAmount kw l = some (cap, amt)) : cap ≠ [] := by
  simp only [matchKwUserAmount] at h
  split at h
  · split at h
    · exact absurd h (by simp)
    · split at h
      · exact tryCapture_ne_nil _ _ _ _ h
      · exact absurd h (by simp)
  · exact absurd h (by simp)

theorem searchKwUserAmount_ne_nil {kw : List Char} :
    ∀ (l cap amt : List Char), searchKwUserAmount kw l = some (cap, amt) → cap ≠ [] := by
  intro l
  induction l with
  | nil =>
    intro cap amt h
    exact absurd h (by simp [searchKwUserAmount])
  | cons c tl ih =>
    intro cap amt h
    unfold searchKwUserAmount at h
    cases hm : matchKwUserAmount kw (c :: tl) with
    | some res =>
      rw [hm] at h
      injection h with h2
      subst h2
      exact matchKwUserAmount_ne_nil hm
    | none =>
      rw [hm] at h
      exact ih cap amt h

theorem matchSendToUser_ne_nil {l amt cap : List Char}
    (h : matchSendToUser l = some (amt, cap)) : cap ≠ [] := by
  simp only [matchSendToUser] at h
  split at h
  · split at h
    · exact absurd h (by simp)
    · split at h
      · exact absurd h (by simp)
      · split at h
        · split at h
          · exact absurd h (by simp)
          · split at h
            · split at h
              · exact absurd h (by simp)
              · rename_i hemp
                injection h with h2
                injection h2 with hamt hcap
                rw [← hcap]
                intro hnil
                exact hemp (by rw [hnil]; rfl)
            · exact absurd h (by simp)
        · exact absurd h (by simp)
  · exact absurd h (by simp)

theorem searchSendToUser_ne_nil :
    ∀ (l amt cap : List Char), searchSendToUser l = some (amt, cap) → cap ≠ [] := by
  intro l
  induction l with
  | nil =>
    intro amt cap h
    exact absurd h (by simp [searchSendToUser])
  | cons c tl ih =>
    intro amt cap h
    unfold searchSendToUser at h
    cases hm : matchSendToUser (c :: tl) with
    | some res =>
      rw [hm] at h
      injection h with h2
      subst h2
      exact matchSendToUser_ne_nil hm
    | none =>
      rw [hm] at h
      exact ih amt cap h

theorem jsParseFloat_nonneg : ∀ {l : List Char} {q : ℚ}, jsParseFloat l = some q → 0 ≤ q := by
  intro l q h
  simp only [jsParseFloat] at h
  split at h
  · split at h
    · split at h
      · exact absurd h (by simp)
      · injection h with h2
        rw [← h2]
        positivity
    · exact absurd h (by simp)
  · split at h
    · split at h
      · injection h with h2
        rw [← h2]
        positivity
      · injection h with h2
        rw [← h2]
        positivity
    · injection h with h2
      rw [← h2]
      positivity

theorem parse_recipient_ne_empty {t : String} {intent : Intent}
    (h : parsePaymentCommand t = some intent) : intent.recipient ≠ "" := by
  simp only [parsePaymentCommand] at h
  split at h
  · exact absurd h (by simp)
  · split at h
    next rcpt amt heq =>
      injection h with h2
      rw [← h2]
      have hc := searchKwUserAmount_ne_nil _ _ _ heq
      intro hEq
      exact hc (by simpa using congrArg String.toList hEq)
    next heq1 =>
      split at h
      next amt rcpt heq2 =>
        injection h with h2
        rw [← h2]
        have hc := searchSendToUser_ne_nil _ _ _ heq2
        intro hEq
        exact hc (by simpa using congrArg String.toList hEq)
      next heq2 =>
        split at h
        next rcpt amt heq3 =>
          injection h with h2
          rw [← h2]
          have hc := searchKwUserAmount_ne_nil _ _ _ heq3
          intro hEq
          exact hc (by simpa using congrArg String.toList hEq)
        next => exact absurd h (by simp)

theorem parse_amount_nonneg {t : String} {intent : Intent} {q : ℚ}
    (h : parsePaymentCommand t = some intent) (h2 : intent.amount = some q) : 0 ≤ q := by
  simp only [parsePaymentCommand] at h
  split at h
  · exact absurd h (by simp)
  · split at h
    next rcpt amt heq =>
      injection h with h3
      rw [← h3] at h2
      exact jsParseFloat_nonneg h2
    next heq1 =>
      split at h
      next amt rcpt heq2 =>
        injection h with h3
        rw [← h3] at h2
        exact jsParseFloat_nonneg h2
      next heq2 =>
        split at h
        next rcpt amt heq3 =>
          injection h with h3
          rw [← h3] at h2
          exact jsParseFloat_nonneg h2
        next => exact absurd h (by simp)

/-- Counterexample for C6.  The claim states the parser returns none when the
    amount is not positive; the code has no such check: "send @alice $0"
    parses to alice with amount 0, which is not greater than 0. -/
theorem parse_zero_amount_counterexample :
    parsePaymentCommand "send @alice $0" = some ⟨"alice", some 0⟩ ∧ ¬((0 : ℚ) > 0) :=
  ⟨by decide, by decide⟩

/-- C6 (amended).  The parser recognizes the three surface forms
    case-insensitively with an optional leading currency symbol and extracts
    the exact recipient and amount; a text containing neither send nor pay
    (case-insensitively) yields none; the recipient capture is never empty.
    Example forms: "send @alice $5.50" gives alice, 5.50; "hello world" gives
    none.  (The claim as stated also has the parser reject amounts that are
    not parseable or not positive; the code returns the intent with amount 0,
    or with amount NaN, leaving any filtering to the caller — see the
    counterexample.) -/
theorem parse_command_forms :
    (∀ t : String, ciContains sendKw (jsTrim t.toList) = false →
      ciContains payKw (jsTrim t.toList) = false → parsePaymentCommand t = none) ∧
    (∀ (t : String) (intent : Intent), parsePaymentCommand t = some intent →
      intent.recipient ≠ "") ∧
    parsePaymentCommand "send @alice $5.50" = some ⟨"alice", some (11 / 2 : ℚ)⟩ ∧
    parsePaymentCommand "hello world" = none ∧
    parsePaymentCommand "Send $7 to @carol" = some ⟨"carol", some 7⟩ ∧
    parsePaymentCommand "PAY @Bob 3" = some ⟨"Bob", some 3⟩ ∧
    parsePaymentCommand "send @dave 2" = some ⟨"dave", some 2⟩ := by
  refine ⟨?_, fun t intent h => parse_recipient_ne_empty h, ?_, by decide, by decide,
    by decide, by decide⟩
  · intro t h1 h2
    simp only [String.toList] at h1 h2
    unfold parsePaymentCommand
    split
    · rfl
    · simp [searchKwUserAmount_eq_none _ h1, searchSendToUser_eq_none _ h1,
        searchKwUserAmount_eq_none _ h2]
  · have hs : searchKwUserAmount sendKw (jsTrim "send @alice $5.50".toList) =
        some ("alice".toList, ['5', '.', '5', '0']) := by decide
    have h5 : digitsToNat (['5'] ++ ['5', '0']) = 550 := by decide
    have hf : jsParseFloat ['5', '.', '5', '0'] = some ((550 : ℚ) / (10 : ℚ) ^ 2) := by
      show some ((digitsToNat (['5'] ++ ['5', '0']) : ℚ) / (10 : ℚ) ^ 2) = _
      rw [h5]
      norm_num
    have hne : ("send @alice $5.50" : String) ≠ "" := by decide
    rw [parsePaymentCommand, if_neg hne]
    simp only [hs, hf]
    simp only [Option.some.injEq, Intent.mk.injEq]
    exact ⟨rfl, by norm_num⟩

/-- Witness for C6: the no-keyword clause applied to "hello world". -/
theorem parse_command_forms_witness :
    ciContains sendKw (jsTrim "hello world".toList) = false ∧
    ciContains payKw (jsTrim "hello world".toList) = false ∧
    parsePaymentCommand "hello world" = none :=
  ⟨by decide, by decide, parse_command_forms.1 "hello world" (by decide) (by decide)⟩

/-- Counterexample for C8.  The claim states no ingestion path can create a
    record with a non-positive amount or with sender equal to recipient.  The
    scanner has no such check: a tweet by alice reading "send @alice $0"
    creates the record alice to alice with amount 0. -/
theorem scanner_invariant_counterexample :
    (scanTweet selfAuthors 0 (emptyStore, none) selfTweet).1.payments =
      [⟨7, "alice", "alice", 0, "pending", none, none, 0⟩] ∧ ¬((0 : ℚ) > 0) :=
  ⟨by decide, by decide⟩

/-- C8 (amended).  Every record the scanner creates has a nonnegative amount
    (parsed amounts are nonnegative) and status pending; but the code does not
    enforce amount strictly positive nor sender distinct from recipient, so
    zero-amount and self-payments are possible (see the counterexample). -/
theorem scanner_created_records (authors : List (String × String)) (now : ℕ)
    (st : Store) (newest : Option ℕ) (tw : Tweet) :
    ∀ p ∈ ((scanTweet authors now (st, newest) tw).1).payments,
      p ∈ st.payments ∨ (0 ≤ p.amount ∧ p.status = "pending") := by
  intro p hp
  unfold scanTweet at hp
  split at hp
  · exact Or.inl hp
  · cases hparse : parsePaymentCommand tw.text with
    | none =>
      simp only [hparse] at hp
      exact Or.inl hp
    | some intent =>
      cases hamt : intent.amount with
      | none =>
        simp only [hparse, hamt] at hp
        exact Or.inl hp
      | some amt =>
        by_cases hrec : intent.recipient = ""
        · simp only [hparse, hamt, hrec] at hp
          simp at hp
          exact Or.inl hp
        · simp only [hparse, hamt] at hp
          rw [if_pos hrec] at hp
          unfold recordPayment at hp
          split at hp
          · exact Or.inl hp
          · exact Or.inl hp
          · rcases List.mem_append.mp hp with hmem | hmem
            · exact Or.inl hmem
            · have hpe := List.mem_singleton.mp hmem
              subst hpe
              exact Or.inr ⟨parse_amount_nonneg hparse hamt, rfl⟩

/-- Witness for C8: the concrete zero-amount self-payment record satisfies the
    amended invariant. -/
theorem scanner_created_records_witness :
    (⟨7, "alice", "alice", 0, "pending", none, none, 0⟩ : PaymentRecord) ∈
      (scanTweet selfAuthors 0 (emptyStore, none) selfTweet).1.payments ∧
    ((⟨7, "alice", "alice", 0, "pending", none, none, 0⟩ : PaymentRecord) ∈
        emptyStore.payments ∨
      (0 ≤ (⟨7, "alice", "alice", 0, "pending", none, none, 0⟩ : PaymentRecord).amount ∧
        (⟨7, "alice", "alice", 0, "pending", none, none, 0⟩ : PaymentRecord).status =
          "pending")) :=
  ⟨by decide,
   scanner_created_records selfAuthors 0 emptyStore none selfTweet _ (by decide)⟩

end WassyPay
